import Mathlib

/-!
# Verification of the `egg` iteration-control core (`src/run.rs`)

Shallow embedding of the `Runner` trait's default orchestration
(`step`, `run`, `run_expr`) and of `SimpleRunner`, the default scheduler
with saturation checking, iteration/node limits and exponential rule
backoff.

External collaborators (the e-graph, the rewrite engine) are modelled
abstractly, exactly through the narrow interface the core consumes:
a graph type `G` with `total_size`, `number_of_classes` and `rebuild`;
a rewrite with a `name`, a `search` producing match-sets and an `apply`
returning the mutated graph together with the length of the id vector it
reports.  `IndexMap` is modelled as an insertion-ordered association
list (lookup by key, in-place update, append on fresh insert), which is
its observable behaviour here.  The wall-clock timing fields of
`Iteration`/`RunReport` (`search_time`, `apply_time`, `rebuild_time`,
`rules_time`) are omitted: they are `f64` real-time measurements and no
verified property concerns them.  Rust's `&mut self`/`&mut egraph`
become explicit state passing: each operation returns the updated
runner and graph.
-/

namespace EggRun

/-- One match-set produced by a rewrite's search; the core only ever
consumes the length of its substitution list (`m.substs.len()`). -/
structure SearchMatches (σ : Type) where
  substs : List σ
  deriving DecidableEq

/-- The narrow e-graph interface consumed by the runner:
`total_size`, `number_of_classes` and `rebuild`. -/
structure EGraphOps (G : Type) where
  total_size : G → Nat
  number_of_classes : G → Nat
  rebuild : G → G

/-- The rewrite collaborator: a stable name, a search producing
match-sets (read-only on the graph), and an apply returning the mutated
graph paired with the length of the `Vec<Id>` it reports. -/
structure Rewrite (G σ : Type) where
  name : String
  search : G → List (SearchMatches σ)
  apply : G → List (SearchMatches σ) → G × Nat

/-- Sum of the match-set lengths, `ms.iter().map(|m| m.substs.len()).sum()`. -/
def totalLen {σ : Type} (ms : List (SearchMatches σ)) : Nat :=
  (ms.map fun m => m.substs.length).sum

/-- Association-list lookup, the model of `IndexMap::get`/`get_mut`. -/
def lookup? {α : Type} : List (String × α) → String → Option α
  | [], _ => none
  | (k', v) :: rest, k => if k' = k then some v else lookup? rest k

/-- In-place update of the value at a key, the model of mutating
through an `IndexMap::get_mut` reference (insertion order preserved). -/
def updateEntry {α : Type} : List (String × α) → String → α → List (String × α)
  | [], _, _ => []
  | (k', v') :: rest, k, v =>
      if k' = k then (k', v) :: rest else (k', v') :: updateEntry rest k v

/-- Data generated by one completed iteration (`struct Iteration`),
without the three wall-clock timing fields. -/
structure Iteration where
  egraph_nodes : Nat
  egraph_classes : Nat
  applied : List (String × Nat)
  deriving DecidableEq

/-- Per-rule scheduling state (`struct RuleStats`). -/
structure RuleStats where
  times_applied : Nat
  banned_until : Nat
  times_banned : Nat
  deriving DecidableEq

/-- The default scheduler's state (`struct SimpleRunner`). -/
structure SimpleRunner where
  iter_limit : Nat
  node_limit : Nat
  i : Nat
  stats : List (String × RuleStats)
  initial_match_limit : Nat
  ban_length : Nat
  deriving DecidableEq

/-- `impl Default for SimpleRunner`. -/
def SimpleRunner.default : SimpleRunner :=
  { iter_limit := 30
    node_limit := 10000
    i := 0
    stats := []
    initial_match_limit := 1000
    ban_length := 5 }

/-- `SimpleRunner::with_iter_limit`. -/
def with_iter_limit (r : SimpleRunner) (iter_limit : Nat) : SimpleRunner :=
  { r with iter_limit := iter_limit }

/-- `SimpleRunner::with_node_limit`. -/
def with_node_limit (r : SimpleRunner) (node_limit : Nat) : SimpleRunner :=
  { r with node_limit := node_limit }

/-- `SimpleRunner::with_initial_match_limit`. -/
def with_initial_match_limit (r : SimpleRunner) (initial_match_limit : Nat) :
    SimpleRunner :=
  { r with initial_match_limit := initial_match_limit }

/-- The chained-builder surface of `SimpleRunner`: one constructor per
public builder method defined in the source (`impl SimpleRunner`,
lines 483-504 of `run.rs`).  The source defines exactly these three. -/
inductive BuilderCall where
  | withIterLimit (n : Nat)
  | withNodeLimit (n : Nat)
  | withInitialMatchLimit (n : Nat)
  deriving DecidableEq

/-- Apply one chained builder call to a configuration. -/
def applyBuilder (r : SimpleRunner) : BuilderCall → SimpleRunner
  | .withIterLimit n => with_iter_limit r n
  | .withNodeLimit n => with_node_limit r n
  | .withInitialMatchLimit n => with_initial_match_limit r n

/-- `enum SimpleRunnerError`: the typed stop reasons. -/
inductive SimpleRunnerError where
  | Saturated
  | IterationLimit (n : Nat)
  | NodeLimit (n : Nat)
  deriving DecidableEq

/-- `SimpleRunner::pre_step`: stop with `IterationLimit(self.i)` when
the counter has reached the limit, before any work for the step. -/
def preStep {G : Type} (r : SimpleRunner) (_egraph : G) :
    Except SimpleRunnerError Unit :=
  if r.iter_limit ≤ r.i then .error (.IterationLimit r.i) else .ok ()

/-- `SimpleRunner::during_step`: stop with `NodeLimit(size)` when the
graph's current size strictly exceeds the node limit. -/
def duringStep {G : Type} (ops : EGraphOps G) (r : SimpleRunner) (g : G) :
    Except SimpleRunnerError Unit :=
  let size := ops.total_size g
  if r.node_limit < size then .error (.NodeLimit size) else .ok ()

/-- `SimpleRunner::post_step`: `any_bans` is computed with the
pre-increment counter, then `self.i += 1`, then saturation is declared
iff nothing was applied and `any_bans` is false. -/
def postStep (r : SimpleRunner) (iteration : Iteration) :
    SimpleRunner × Except SimpleRunnerError Unit :=
  let any_bans := r.stats.any fun s => decide (r.i < s.2.banned_until)
  let r' := { r with i := r.i + 1 }
  if !any_bans && iteration.applied.isEmpty then
    (r', .error .Saturated)
  else
    (r', .ok ())

/-- `SimpleRunner::search_rewrite`: the backoff state machine.  A rule
with a stats entry is skipped while banned; otherwise its search runs
and, when the summed match length exceeds
`initial_match_limit <<< times_banned`, the rule is banned for
`ban_length <<< times_banned` iterations (computed before the
increment of `times_banned`) and its matches are discarded; otherwise
`times_applied` is bumped and the matches returned.  A rule without a
stats entry gets a fresh zero entry and its search result unchecked. -/
def searchRewrite {G σ : Type} (r : SimpleRunner) (g : G)
    (rewrite : Rewrite G σ) : SimpleRunner × List (SearchMatches σ) :=
  match lookup? r.stats rewrite.name with
  | some limit =>
    if r.i < limit.banned_until then
      (r, [])
    else
      let ms := rewrite.search g
      let total_len := totalLen ms
      let threshold := r.initial_match_limit <<< limit.times_banned
      if threshold < total_len then
        let bl := r.ban_length <<< limit.times_banned
        ({ r with stats := (updateEntry r.stats rewrite.name
            { limit with
                times_banned := limit.times_banned + 1
                banned_until := r.i + bl }) }, [])
      else
        ({ r with stats := (updateEntry r.stats rewrite.name
            { limit with times_applied := limit.times_applied + 1 }) },
         ms)
  | none =>
    ({ r with stats := r.stats ++
        [(rewrite.name,
          { times_applied := 0, banned_until := 0, times_banned := 0 })] },
     rewrite.search g)

/-- The default `Runner::apply_rewrite`: delegate to the rule's apply
and report the length of the returned id vector. -/
def applyRewrite {G σ : Type} (r : SimpleRunner) (g : G)
    (rewrite : Rewrite G σ) (ms : List (SearchMatches σ)) :
    SimpleRunner × G × Nat :=
  let (g', n) := rewrite.apply g ms
  (r, g', n)

/-- The search phase of `Runner::step`: for each rule in order, call
`search_rewrite`, collect its matches, then call `during_step`; an
error aborts the step immediately. -/
def searchLoop {G σ : Type} (ops : EGraphOps G) (r : SimpleRunner) (g : G) :
    List (Rewrite G σ) →
    SimpleRunner × Except SimpleRunnerError (List (List (SearchMatches σ)))
  | [] => (r, .ok [])
  | rule :: rest =>
    let (r1, ms) := searchRewrite r g rule
    match duringStep ops r1 g with
    | .error e => (r1, .error e)
    | .ok () =>
      match searchLoop ops r1 g rest with
      | (r2, .ok mss) => (r2, .ok (ms :: mss))
      | (r2, .error e) => (r2, .error e)

/-- The apply phase of `Runner::step`: for each `(rule, matches)` pair
in order, skip the rule entirely when the summed match length is zero
(the `continue` also skips that pair's `during_step`); otherwise call
`apply_rewrite`, record the rule's name in the applied mapping when the
returned count is positive, then call `during_step`; an error aborts
the step, keeping the mutations already made. -/
def applyLoop {G σ : Type} (ops : EGraphOps G) (r : SimpleRunner) (g : G)
    (applied : List (String × Nat)) :
    List (Rewrite G σ × List (SearchMatches σ)) →
    SimpleRunner × G × List (String × Nat) × Except SimpleRunnerError Unit
  | [] => (r, g, applied, .ok ())
  | (rw, ms) :: rest =>
    let total_matches := totalLen ms
    if total_matches = 0 then
      applyLoop ops r g applied rest
    else
      let (r1, g1, actually_matched) := applyRewrite r g rw ms
      let applied1 :=
        if 0 < actually_matched then
          match lookup? applied rw.name with
          | some count => updateEntry applied rw.name (count + 1)
          | none => applied ++ [(rw.name, 1)]
        else applied
      match duringStep ops r1 g1 with
      | .error e => (r1, g1, applied1, .error e)
      | .ok () => applyLoop ops r1 g1 applied1 rest

/-- The default `Runner::step`: snapshot size and class count, run the
search phase, run the apply phase over the rule/match pairs, rebuild,
and assemble the `Iteration`; any `during_step` error propagates with
the graph as mutated so far. -/
def step {G σ : Type} (ops : EGraphOps G) (r : SimpleRunner) (g : G)
    (rules : List (Rewrite G σ)) :
    SimpleRunner × G × Except SimpleRunnerError Iteration :=
  let egraph_nodes := ops.total_size g
  let egraph_classes := ops.number_of_classes g
  match searchLoop ops r g rules with
  | (r1, .error e) => (r1, g, .error e)
  | (r1, .ok mss) =>
    match applyLoop ops r1 g [] (rules.zip mss) with
    | (r2, g2, _, .error e) => (r2, g2, .error e)
    | (r2, g2, applied, .ok ()) =>
      let g3 := ops.rebuild g2
      (r2, g3, .ok { egraph_nodes := egraph_nodes
                     egraph_classes := egraph_classes
                     applied := applied })

theorem searchRewrite_ctrl {G σ : Type} (r : SimpleRunner) (g : G)
    (rule : Rewrite G σ) :
    (searchRewrite r g rule).1.iter_limit = r.iter_limit ∧
      (searchRewrite r g rule).1.i = r.i := by
  simp only [searchRewrite]
  split
  · split
    · exact ⟨rfl, rfl⟩
    · split <;> exact ⟨rfl, rfl⟩
  · exact ⟨rfl, rfl⟩

theorem searchLoop_ctrl {G σ : Type} (ops : EGraphOps G) (r : SimpleRunner)
    (g : G) (rules : List (Rewrite G σ)) :
    (searchLoop ops r g rules).1.iter_limit = r.iter_limit ∧
      (searchLoop ops r g rules).1.i = r.i := by
  induction rules generalizing r with
  | nil => simp [searchLoop]
  | cons rule rest ih =>
    have h := searchRewrite_ctrl (σ := σ) r g rule
    unfold searchLoop
    cases hsr : searchRewrite r g rule with
    | mk r1 ms =>
      rw [hsr] at h
      simp only at h ⊢
      cases duringStep ops r1 g with
      | error e => simpa using h
      | ok u =>
        cases u
        have h2 := ih r1
        cases hsl : searchLoop ops r1 g rest with
        | mk r2 res =>
          rw [hsl] at h2
          cases res <;> simp_all

theorem applyLoop_ctrl {G σ : Type} (ops : EGraphOps G) (r : SimpleRunner)
    (g : G) (applied : List (String × Nat))
    (pairs : List (Rewrite G σ × List (SearchMatches σ))) :
    (applyLoop ops r g applied pairs).1.iter_limit = r.iter_limit ∧
      (applyLoop ops r g applied pairs).1.i = r.i := by
  induction pairs generalizing r g applied with
  | nil => simp [applyLoop]
  | cons p rest ih =>
    obtain ⟨rw, ms⟩ := p
    cases hap : rw.apply g ms with
    | mk g1 n =>
      simp only [applyLoop, applyRewrite, hap]
      split
      · exact ih r g applied
      · cases hds : duringStep ops r g1 with
        | error e => simp [hds]
        | ok u =>
          cases u
          simp only [hds]
          exact ih r g1 _

theorem step_ctrl {G σ : Type} (ops : EGraphOps G) (r : SimpleRunner) (g : G)
    (rules : List (Rewrite G σ)) :
    (step ops r g rules).1.iter_limit = r.iter_limit ∧
      (step ops r g rules).1.i = r.i := by
  unfold step
  have h1 := searchLoop_ctrl (σ := σ) ops r g rules
  cases hsl : searchLoop (σ := σ) ops r g rules with
  | mk r1 res =>
    rw [hsl] at h1
    cases res with
    | error e => simpa using h1
    | ok mss =>
      simp only at h1 ⊢
      have h2 := applyLoop_ctrl ops r1 g [] (rules.zip mss)
      cases hal : applyLoop ops r1 g [] (rules.zip mss) with
      | mk r2 rest2 =>
        rw [hal] at h2
        obtain ⟨g2, applied2, res2⟩ := rest2
        cases res2 <;> simp_all

theorem postStep_fst (r : SimpleRunner) (iteration : Iteration) :
    (postStep r iteration).1 = { r with i := r.i + 1 } := by
  simp only [postStep]
  split <;> rfl

theorem preStep_ok_iff {G : Type} (r : SimpleRunner) (g : G) :
    preStep r g = .ok () ↔ r.i < r.iter_limit := by
  unfold preStep
  split <;> simp <;> omega

/-- The default `Runner::run`: loop `pre_step → step → post_step`,
appending each completed `Iteration`, until a hook returns an error,
which becomes the stop reason.  The Rust loop terminates because
`post_step` increments the counter on every completed pass and
`pre_step` errors once the counter reaches the limit; the recursion
here is justified by exactly that measure. -/
def run {G σ : Type} (ops : EGraphOps G) (r : SimpleRunner) (g : G)
    (rules : List (Rewrite G σ)) :
    List Iteration × SimpleRunnerError × SimpleRunner × G :=
  match hp : preStep r g with
  | .error e => ([], e, r, g)
  | .ok () =>
    match hs : step ops r g rules with
    | (r1, g1, .error e) => ([], e, r1, g1)
    | (r1, g1, .ok iter) =>
      match hps : postStep r1 iter with
      | (r2, .error e) => ([iter], e, r2, g1)
      | (r2, .ok ()) =>
        let rest := run ops r2 g1 rules
        (iter :: rest.1, rest.2)
termination_by r.iter_limit - r.i
decreasing_by
  have hlt : r.i < r.iter_limit := (preStep_ok_iff r g).mp hp
  have h1 := step_ctrl ops r g rules
  rw [hs] at h1
  have h2 := postStep_fst r1 iter
  rw [hps] at h2
  have hi2 : r2.iter_limit = r.iter_limit ∧ r2.i = r.i + 1 := by
    have := congrArg SimpleRunner.iter_limit h2
    have := congrArg SimpleRunner.i h2
    simp_all
  omega

theorem run_preStep_error {G σ : Type} (ops : EGraphOps G) (r : SimpleRunner)
    (g : G) (rules : List (Rewrite G σ)) (e : SimpleRunnerError)
    (he : preStep r g = .error e) :
    run ops r g rules = ([], e, r, g) := by
  rw [run]
  split
  · next e0 he0 => rw [he] at he0; cases he0; rfl
  · next he0 => rw [he] at he0; exact Except.noConfusion he0

theorem run_step_error {G σ : Type} (ops : EGraphOps G) (r : SimpleRunner)
    (g : G) (rules : List (Rewrite G σ)) (r1 : SimpleRunner) (g1 : G)
    (e : SimpleRunnerError) (hp : preStep r g = .ok ())
    (hs : step ops r g rules = (r1, g1, .error e)) :
    run ops r g rules = ([], e, r1, g1) := by
  rw [run]
  split
  · next he0 => rw [hp] at he0; exact Except.noConfusion he0
  · next he0 =>
    split
    · next hs0 => rw [hs] at hs0; cases hs0; rfl
    · next hs0 => rw [hs] at hs0; cases hs0

theorem run_postStep_error {G σ : Type} (ops : EGraphOps G) (r : SimpleRunner)
    (g : G) (rules : List (Rewrite G σ)) (r1 r2 : SimpleRunner) (g1 : G)
    (iter : Iteration) (e : SimpleRunnerError) (hp : preStep r g = .ok ())
    (hs : step ops r g rules = (r1, g1, .ok iter))
    (hps : postStep r1 iter = (r2, .error e)) :
    run ops r g rules = ([iter], e, r2, g1) := by
  rw [run]
  split
  · next he0 => rw [hp] at he0; exact Except.noConfusion he0
  · next he0 =>
    split
    · next hs0 => rw [hs] at hs0; cases hs0
    · next hs0 =>
      rw [hs] at hs0
      injection hs0 with h1 h23
      injection h23 with h2 h3
      cases h1; cases h2; cases h3
      split
      · next hps0 => rw [hps] at hps0; cases hps0; rfl
      · next hps0 => rw [hps] at hps0; cases hps0

theorem run_continue {G σ : Type} (ops : EGraphOps G) (r : SimpleRunner)
    (g : G) (rules : List (Rewrite G σ)) (r1 r2 : SimpleRunner) (g1 : G)
    (iter : Iteration) (hp : preStep r g = .ok ())
    (hs : step ops r g rules = (r1, g1, .ok iter))
    (hps : postStep r1 iter = (r2, .ok ())) :
    run ops r g rules =
      (iter :: (run ops r2 g1 rules).1, (run ops r2 g1 rules).2) := by
  rw [run]
  split
  · next he0 => rw [hp] at he0; exact Except.noConfusion he0
  · next he0 =>
    split
    · next hs0 => rw [hs] at hs0; cases hs0
    · next hs0 =>
      rw [hs] at hs0
      injection hs0 with h1 h23
      injection h23 with h2 h3
      cases h1; cases h2; cases h3
      split
      · next hps0 => rw [hps] at hps0; cases hps0
      · next hps0 => rw [hps] at hps0; injection hps0 with h4 _; cases h4; rfl

theorem lookup?_append_of_some {α : Type} (l l' : List (String × α))
    (k : String) (v : α) (h : lookup? l k = some v) :
    lookup? (l ++ l') k = some v := by
  induction l with
  | nil => exact absurd h (by simp [lookup?])
  | cons p rest ih =>
    unfold lookup? at h ⊢
    split at h <;> rename_i hk
    · simpa [hk] using h
    · simpa [hk] using ih h

theorem lookup?_append_of_none {α : Type} (l l' : List (String × α))
    (k : String) (h : lookup? l k = none) :
    lookup? (l ++ l') k = lookup? l' k := by
  induction l with
  | nil => simp
  | cons p rest ih =>
    obtain ⟨k0, v0⟩ := p
    simp only [lookup?] at h
    rw [List.cons_append]
    simp only [lookup?]
    split at h <;> rename_i hk
    · exact Option.noConfusion h
    · rw [if_neg hk]
      exact ih h

theorem lookup?_mem {α : Type} (l : List (String × α)) (k : String) (v : α)
    (h : lookup? l k = some v) : (k, v) ∈ l := by
  induction l with
  | nil => exact absurd h (by simp [lookup?])
  | cons p rest ih =>
    unfold lookup? at h
    split at h <;> rename_i hk
    · cases h; cases p; simp_all
    · simp [ih h]

theorem lookup?_updateEntry_self {α : Type} (l : List (String × α))
    (k : String) (v0 v : α) (h : lookup? l k = some v0) :
    lookup? (updateEntry l k v) k = some v := by
  induction l with
  | nil => exact absurd h (by simp [lookup?])
  | cons p rest ih =>
    obtain ⟨k', v'⟩ := p
    by_cases hk : k' = k
    · simp [updateEntry, lookup?, hk]
    · unfold lookup? at h
      rw [if_neg hk] at h
      simp only [updateEntry, if_neg hk]
      unfold lookup?
      rw [if_neg hk]
      exact ih h

theorem lookup?_updateEntry_other {α : Type} (l : List (String × α))
    (k k' : String) (v : α) (hk : k' ≠ k) :
    lookup? (updateEntry l k v) k' = lookup? l k' := by
  induction l with
  | nil => simp [updateEntry]
  | cons p rest ih =>
    cases p with
    | mk k0 v0 =>
      unfold updateEntry
      by_cases h0 : k0 = k
      · rw [if_pos h0]
        unfold lookup?
        rw [if_neg (h0 ▸ fun hc => hk (hc.symm ▸ rfl)), if_neg (by rw [h0]; exact fun hc => hk (hc.symm ▸ rfl))]
      · rw [if_neg h0]
        unfold lookup?
        split <;> simp [ih]

theorem mem_updateEntry {α : Type} (l : List (String × α)) (k : String)
    (v : α) (p : String × α) (h : p ∈ updateEntry l k v) :
    p ∈ l ∨ p = (k, v) := by
  induction l with
  | nil => simp [updateEntry] at h
  | cons q rest ih =>
    cases q with
    | mk k0 v0 =>
      unfold updateEntry at h
      split at h <;> rename_i hk
      · rcases List.mem_cons.mp h with h1 | h1
        · right; rw [h1, hk]
        · left; exact List.mem_cons_of_mem _ h1
      · rcases List.mem_cons.mp h with h1 | h1
        · left; rw [h1]; exact List.mem_cons_self _ _
        · rcases ih h1 with h2 | h2
          · left; exact List.mem_cons_of_mem _ h2
          · right; exact h2

/-- Data generated by `run_expr` (`struct RunReport`), without the
wall-clock `rules_time` field. -/
structure RunReport (Expr Id E : Type) where
  initial_expr : Expr
  initial_expr_eclass : Id
  iterations : List Iteration
  stop_reason : E
  deriving DecidableEq

/-- The graph-construction interface consumed only by `run_expr`:
`EGraph::from_expr` and `EGraph::find`. -/
structure ExprOps (G Expr Id : Type) where
  from_expr : Expr → G × Id
  find : G → Id → Id

/-- The default `Runner::run_expr`: build the graph from the term, run
the loop, canonicalize the root id on the final graph, and assemble
the report. -/
def runExpr {G σ Expr Id : Type} (ops : EGraphOps G)
    (xops : ExprOps G Expr Id) (r : SimpleRunner) (initial_expr : Expr)
    (rules : List (Rewrite G σ)) :
    G × RunReport Expr Id SimpleRunnerError × SimpleRunner :=
  let (egraph, initial_expr_eclass) := xops.from_expr initial_expr
  let (iterations, stop_reason, r1, egraph1) := run ops r egraph rules
  (egraph1,
   { initial_expr := initial_expr
     initial_expr_eclass := xops.find egraph1 initial_expr_eclass
     iterations := iterations
     stop_reason := stop_reason },
   r1)

theorem duringStep_error_kind {G : Type} (ops : EGraphOps G)
    (r : SimpleRunner) (g : G) (e : SimpleRunnerError)
    (h : duringStep ops r g = .error e) : ∃ n, e = .NodeLimit n := by
  simp only [duringStep] at h
  split at h
  · exact ⟨_, by injection h with h0; exact h0.symm⟩
  · exact Except.noConfusion h

theorem searchLoop_error_kind {G σ : Type} (ops : EGraphOps G)
    (r : SimpleRunner) (g : G) (rules : List (Rewrite G σ))
    (r1 : SimpleRunner) (e : SimpleRunnerError)
    (h : searchLoop ops r g rules = (r1, .error e)) :
    ∃ n, e = .NodeLimit n := by
  induction rules generalizing r r1 e with
  | nil => simp [searchLoop] at h
  | cons rule rest ih =>
    unfold searchLoop at h
    cases hsr : searchRewrite r g rule with
    | mk ra ms =>
      rw [hsr] at h
      simp only at h
      cases hds : duringStep ops ra g with
      | error e0 =>
        rw [hds] at h
        injection h with _ h2
        injection h2 with h2
        exact h2 ▸ duringStep_error_kind ops ra g e0 hds
      | ok u =>
        cases u
        rw [hds] at h
        simp only at h
        cases hsl : searchLoop ops ra g rest with
        | mk rb res =>
          rw [hsl] at h
          cases res with
          | ok mss => simp at h
          | error e1 =>
            simp only at h
            injection h with _ h2
            injection h2 with h2
            exact h2 ▸ ih ra rb e1 hsl

theorem applyLoop_error_kind {G σ : Type} (ops : EGraphOps G)
    (r : SimpleRunner) (g : G) (applied : List (String × Nat))
    (pairs : List (Rewrite G σ × List (SearchMatches σ)))
    (r1 : SimpleRunner) (g1 : G) (applied1 : List (String × Nat))
    (e : SimpleRunnerError)
    (h : applyLoop ops r g applied pairs = (r1, g1, applied1, .error e)) :
    ∃ n, e = .NodeLimit n := by
  induction pairs generalizing r g applied r1 g1 applied1 e with
  | nil => simp [applyLoop] at h
  | cons p rest ih =>
    obtain ⟨rw, ms⟩ := p
    cases hap : rw.apply g ms with
    | mk ga n =>
      simp only [applyLoop, applyRewrite, hap] at h
      split at h
      · exact ih r g applied r1 g1 applied1 e h
      · cases hds : duringStep ops r ga with
        | error e0 =>
          rw [hds] at h
          simp only at h
          injection h with _ h2
          injection h2 with _ h3
          injection h3 with _ h4
          injection h4 with h4
          exact h4 ▸ duringStep_error_kind ops r ga e0 hds
        | ok u =>
          cases u
          rw [hds] at h
          simp only at h
          exact ih r ga _ r1 g1 applied1 e h

theorem step_error_kind {G σ : Type} (ops : EGraphOps G) (r : SimpleRunner)
    (g : G) (rules : List (Rewrite G σ)) (r1 : SimpleRunner) (g1 : G)
    (e : SimpleRunnerError)
    (h : step ops r g rules = (r1, g1, .error e)) :
    ∃ n, e = .NodeLimit n := by
  unfold step at h
  cases hsl : searchLoop ops r g rules with
  | mk ra res =>
    rw [hsl] at h
    cases res with
    | error e0 =>
      simp only at h
      injection h with _ h2
      injection h2 with _ h3
      injection h3 with h3
      exact h3 ▸ searchLoop_error_kind ops r g rules ra e0 hsl
    | ok mss =>
      simp only at h
      cases hal : applyLoop ops ra g [] (rules.zip mss) with
      | mk rb rest2 =>
        obtain ⟨gb, appliedb, resb⟩ := rest2
        rw [hal] at h
        cases resb with
        | error e1 =>
          simp only at h
          injection h with _ h2
          injection h2 with _ h3
          injection h3 with h3
          exact h3 ▸ applyLoop_error_kind ops ra g [] (rules.zip mss)
            rb gb appliedb e1 hal
        | ok u => cases u; simp at h

theorem postStep_error_kind (r r1 : SimpleRunner) (iteration : Iteration)
    (e : SimpleRunnerError)
    (h : postStep r iteration = (r1, .error e)) : e = .Saturated := by
  simp only [postStep] at h
  split at h
  · injection h with _ h2; injection h2 with h2; exact h2.symm
  · injection h with _ h2; exact Except.noConfusion h2

/-- A toy graph: the graph is just its node count.  `total_size` is the
identity, there is one class, `rebuild` changes nothing. -/
def natOps : EGraphOps Nat := ⟨id, fun _ => 1, id⟩

/-- A rule that always finds one match (one substitution) and whose
apply grows the graph by one node, reporting one touched id. -/
def growRule : Rewrite Nat Nat :=
  ⟨"grow", fun _ => [⟨[0]⟩], fun g _ => (g + 1, 1)⟩

/-- A rule that never matches. -/
def idleRule : Rewrite Nat Nat :=
  ⟨"idle", fun _ => [], fun g _ => (g, 0)⟩

/-- A rule that always finds nine substitutions in one match-set and
whose apply reports one touched id. -/
def wideRule : Rewrite Nat Nat :=
  ⟨"wide", fun _ => [⟨List.replicate 9 0⟩], fun g _ => (g + 1, 1)⟩

/-! ## Claim theorems -/

/-- C7: `SimpleRunner::during_step` signals a stop iff the graph's
current total node count strictly exceeds the configured `node_limit`;
any stop it signals carries `NodeLimit` of that current size (not the
configured limit); and at size exactly equal to `node_limit` it signals
continue. -/
theorem C7_during_step_stops_iff_over_node_limit {G : Type}
    (ops : EGraphOps G) (r : SimpleRunner) (g : G) :
    (duringStep ops r g = .error (.NodeLimit (ops.total_size g)) ↔
      r.node_limit < ops.total_size g) ∧
    (∀ e, duringStep ops r g = .error e → e = .NodeLimit (ops.total_size g)) ∧
    (ops.total_size g = r.node_limit → duringStep ops r g = .ok ()) := by
  simp only [duringStep]
  split
  · next h => exact ⟨by simp [h], fun e he => by simpa using he.symm,
      fun heq => absurd h (by omega)⟩
  · next h => exact ⟨by simp [h], fun e he => by simp at he,
      fun _ => rfl⟩

/-- C7 witness: at size 10001 against the default limit 10000 the hook
stops with `NodeLimit 10001`; at size exactly 10000 it continues. -/
theorem C7_witness :
    ((duringStep natOps SimpleRunner.default 10001 =
        .error (.NodeLimit (natOps.total_size 10001)) ↔
      SimpleRunner.default.node_limit < natOps.total_size 10001) ∧
    (∀ e, duringStep natOps SimpleRunner.default 10001 = .error e →
      e = .NodeLimit (natOps.total_size 10001)) ∧
    (natOps.total_size 10001 = SimpleRunner.default.node_limit →
      duringStep natOps SimpleRunner.default 10001 = .ok ())) ∧
    duringStep natOps SimpleRunner.default 10000 = .ok () :=
  ⟨C7_during_step_stops_iff_over_node_limit natOps SimpleRunner.default 10001,
   rfl⟩

/-- C10: on the first encounter of a rule (no stats entry), the search
runs and all its matches are returned with no threshold comparison, and
the fresh stats entry is `{times_applied := 0, banned_until := 0,
times_banned := 0}` — in particular `times_applied` stays 0 even though
the matches go on to the apply phase, and the rule cannot be banned
that step however many matches it produced. -/
theorem C10_first_encounter_unchecked {G σ : Type} (r : SimpleRunner)
    (g : G) (rule : Rewrite G σ)
    (h : lookup? r.stats rule.name = none) :
    searchRewrite r g rule =
      ({ r with stats := r.stats ++
          [(rule.name,
            { times_applied := 0, banned_until := 0, times_banned := 0 })] },
       rule.search g) := by
  unfold searchRewrite
  rw [h]

/-- C10 witness: a fresh runner with `initial_match_limit = 2` meets a
rule producing nine substitutions; the first search still returns the
full matches and records a zero stats entry (no ban, `times_applied`
0). -/
theorem C10_witness :
    lookup? (with_initial_match_limit SimpleRunner.default 2).stats
        wideRule.name = none ∧
    searchRewrite (with_initial_match_limit SimpleRunner.default 2)
        (0 : Nat) wideRule =
      ({ with_initial_match_limit SimpleRunner.default 2 with
          stats := (with_initial_match_limit SimpleRunner.default 2).stats ++
            [(wideRule.name,
              { times_applied := 0, banned_until := 0, times_banned := 0 })] },
       wideRule.search 0) :=
  ⟨rfl, C10_first_encounter_unchecked _ 0 wideRule rfl⟩

/-- C2: for a rule with a stats entry and no active ban, writing
`k := times_banned + 1` for the number this ban event would carry, the
ban fires exactly when the summed match length exceeds
`initial_match_limit * 2^(k-1)`; it then sets `banned_until` to the
current iteration plus `ban_length * 2^(k-1)` and increments
`times_banned` by exactly 1 (leaving `times_applied` alone); below or
at the threshold no ban state changes.  Both the threshold and the
duration therefore double on each successive ban of the rule. -/
theorem C2_ban_event_doubling {G σ : Type} (r : SimpleRunner) (g : G)
    (rule : Rewrite G σ) (s : RuleStats)
    (hs : lookup? r.stats rule.name = some s)
    (hnb : ¬ r.i < s.banned_until) :
    (r.initial_match_limit * 2 ^ s.times_banned < totalLen (rule.search g) →
      searchRewrite r g rule =
        ({ r with stats := (updateEntry r.stats rule.name
            { times_applied := s.times_applied
              banned_until := r.i + r.ban_length * 2 ^ s.times_banned
              times_banned := s.times_banned + 1 }) }, [])) ∧
    (totalLen (rule.search g) ≤ r.initial_match_limit * 2 ^ s.times_banned →
      searchRewrite r g rule =
        ({ r with stats := (updateEntry r.stats rule.name
            { s with times_applied := s.times_applied + 1 }) },
         rule.search g)) := by
  simp only [searchRewrite, hs, if_neg hnb, Nat.shiftLeft_eq]
  constructor
  · intro h
    rw [if_pos h]
  · intro h
    rw [if_neg (Nat.not_lt.mpr h)]

/-- C2 witness: second ban of a rule (`times_banned = 1`,
`initial_match_limit = 2`, `ban_length = 5`, iteration 4): nine
substitutions exceed the threshold `2·2 = 4`, so the rule is banned
until `4 + 5·2 = 14` with `times_banned` bumped from 1 to 2. -/
theorem C2_witness :
    (({ SimpleRunner.default with
          i := 4, initial_match_limit := 2,
          stats := [("wide", ⟨3, 2, 1⟩)] } : SimpleRunner).initial_match_limit
        * 2 ^ (1 : Nat) < totalLen (wideRule.search 0) →
      searchRewrite
        ({ SimpleRunner.default with
            i := 4, initial_match_limit := 2,
            stats := [("wide", ⟨3, 2, 1⟩)] }) (0 : Nat) wideRule =
        ({ ({ SimpleRunner.default with
              i := 4, initial_match_limit := 2,
              stats := [("wide", ⟨3, 2, 1⟩)] } : SimpleRunner) with
            stats := (updateEntry [("wide", ⟨3, 2, 1⟩)] "wide"
              { times_applied := 3
                banned_until := 4 + 5 * 2 ^ (1 : Nat)
                times_banned := 1 + 1 }) }, [])) ∧
    (totalLen (wideRule.search 0) ≤ 2 * 2 ^ (1 : Nat) →
      searchRewrite
        ({ SimpleRunner.default with
            i := 4, initial_match_limit := 2,
            stats := [("wide", ⟨3, 2, 1⟩)] }) (0 : Nat) wideRule =
        ({ ({ SimpleRunner.default with
              i := 4, initial_match_limit := 2,
              stats := [("wide", ⟨3, 2, 1⟩)] } : SimpleRunner) with
            stats := (updateEntry [("wide", ⟨3, 2, 1⟩)] "wide"
              { (⟨3, 2, 1⟩ : RuleStats) with times_applied := 3 + 1 }) },
         wideRule.search 0)) := by
  have h := C2_ban_event_doubling
    ({ SimpleRunner.default with
        i := 4, initial_match_limit := 2,
        stats := [("wide", ⟨3, 2, 1⟩)] }) (0 : Nat) wideRule ⟨3, 2, 1⟩
    rfl (by decide)
  exact h

/-- A runner state reachable after six steps of a run in which the rule
`"r"` was banned at iteration 1 for the base five iterations
(`banned_until = 1 + 5 = 6`), and the five subsequent steps applied
nothing. -/
def c1Runner : SimpleRunner :=
  { SimpleRunner.default with
      i := 5
      stats := [("r", ⟨0, 6, 1⟩)] }

/-- The record of a completed step that applied nothing. -/
def c1Iter : Iteration := ⟨1, 1, []⟩

/-- C1 counterexample: the claim reads the ban check against the
incremented counter.  At iteration 5 with a rule banned until 6 and an
empty applied mapping, no `banned_until` exceeds the incremented
counter 6, so the claim demands a `Saturated` stop — but the code
evaluates `any_bans` with the pre-increment counter 5 (`6 > 5`), so
`post_step` signals continue. -/
theorem C1_counterexample :
    ¬ (((postStep c1Runner c1Iter).2 = .error .Saturated) ↔
        (c1Iter.applied = [] ∧
          ∀ p ∈ c1Runner.stats, p.2.banned_until ≤ c1Runner.i + 1)) := by
  intro h
  have hok : (postStep c1Runner c1Iter).2 = .ok () := rfl
  have hsat := h.mpr ⟨rfl, by decide⟩
  rw [hok] at hsat
  exact Except.noConfusion hsat

/-- C1 amended: `post_step` increments the iteration counter, and stops
with `Saturated` iff the completed step's applied mapping is empty and
no rule's `banned_until` exceeds the *pre-increment* counter (the index
of the just-completed step); in every other case it signals continue. -/
theorem C1_post_step_saturation (r : SimpleRunner) (iteration : Iteration) :
    ((postStep r iteration).1 = { r with i := r.i + 1 }) ∧
    ((postStep r iteration).2 = .error .Saturated ↔
      iteration.applied = [] ∧ ∀ p ∈ r.stats, p.2.banned_until ≤ r.i) ∧
    ((postStep r iteration).2 = .error .Saturated ∨
      (postStep r iteration).2 = .ok ()) := by
  refine ⟨postStep_fst r iteration, ?_, ?_⟩
  · simp only [postStep]
    split
    · next h =>
      simp only [Bool.and_eq_true, Bool.not_eq_true', List.any_eq_false,
        decide_eq_true_eq, Nat.not_lt, List.isEmpty_iff] at h
      exact ⟨fun _ => ⟨h.2, fun p hp => h.1 p hp⟩, fun _ => rfl⟩
    · next h =>
      simp only [Bool.and_eq_true, Bool.not_eq_true', List.any_eq_false,
        decide_eq_true_eq, Nat.not_lt, List.isEmpty_iff] at h
      constructor
      · intro hc
        exact Except.noConfusion hc
      · rintro ⟨h2, h3⟩
        exact absurd ⟨fun p hp => h3 p hp, h2⟩ h
  · simp only [postStep]
    split
    · exact .inl rfl
    · exact .inr rfl

/-- C3 counterexample: `ban_length` is not settable.  The source
defines exactly three builder methods (`with_iter_limit`,
`with_node_limit`, `with_initial_match_limit`); no chained builder call
on the default configuration can make `ban_length` anything other than
its default 5 — in particular none yields 7. -/
theorem C3_counterexample :
    ¬ ∃ c : BuilderCall, (applyBuilder SimpleRunner.default c).ban_length = 7 := by
  rintro ⟨c, h⟩
  cases c <;>
    simp [applyBuilder, with_iter_limit, with_node_limit,
      with_initial_match_limit, SimpleRunner.default] at h

/-- C3 amended: the three builder methods the source defines —
`with_iter_limit`, `with_node_limit`, `with_initial_match_limit` — each
set exactly their own option and leave every other field unchanged;
`ban_length` has no builder, so every builder call preserves it; the
defaults are `iter_limit = 30`, `node_limit = 10000`,
`initial_match_limit = 1000`, `ban_length = 5`. -/
theorem C3_builders_frame (r : SimpleRunner) (n : Nat) (c : BuilderCall) :
    (with_iter_limit r n = { r with iter_limit := n }) ∧
    (with_node_limit r n = { r with node_limit := n }) ∧
    (with_initial_match_limit r n = { r with initial_match_limit := n }) ∧
    ((applyBuilder r c).ban_length = r.ban_length) ∧
    (SimpleRunner.default.iter_limit = 30 ∧
      SimpleRunner.default.node_limit = 10000 ∧
      SimpleRunner.default.initial_match_limit = 1000 ∧
      SimpleRunner.default.ban_length = 5) :=
  ⟨rfl, rfl, rfl, by cases c <;> rfl, rfl, rfl, rfl, rfl⟩

/-- `ExprOps` for the toy graph: the term is its own node count and the
root id is 0; `find` is the identity on ids. -/
def natExprOps : ExprOps Nat Nat Nat := ⟨fun e => (e, 0), fun _ i => i⟩

/-- C9: neither `run` nor `run_expr` resets the iteration counter or
the per-rule stats.  Whenever a run begins with the counter at or above
`iter_limit`, `run` returns immediately: no iteration records, stop
reason `IterationLimit` carrying the *current counter value* (not
necessarily the configured limit), and the runner — counter and stats —
returned exactly as it was; `run_expr` likewise reports no iterations
and that same stop reason. -/
theorem C9_run_at_or_past_limit {G σ Expr Id : Type} (ops : EGraphOps G)
    (xops : ExprOps G Expr Id) (r : SimpleRunner) (g : G)
    (initial_expr : Expr) (rules : List (Rewrite G σ))
    (h : r.iter_limit ≤ r.i) :
    run ops r g rules = ([], .IterationLimit r.i, r, g) ∧
    (runExpr ops xops r initial_expr rules).2.1.iterations = [] ∧
    (runExpr ops xops r initial_expr rules).2.1.stop_reason =
      .IterationLimit r.i ∧
    (runExpr ops xops r initial_expr rules).2.2 = r := by
  have hrun : ∀ g0 : G, run ops r g0 rules = ([], .IterationLimit r.i, r, g0) := by
    intro g0
    exact run_preStep_error ops r g0 rules _ (by unfold preStep; rw [if_pos h])
  refine ⟨hrun g, ?_, ?_, ?_⟩ <;>
  · cases hfe : xops.from_expr initial_expr with
    | mk g0 root => simp [runExpr, hfe, hrun g0]

/-- C9 witness: a runner with `iter_limit = 3` but counter already at 5
(as after a previous run that ended at its limit and two manual bumps,
or a rebuilt configuration) stops at once with `IterationLimit 5` — a
value different from the configured limit 3 — and zero records. -/
theorem C9_witness :
    (run natOps
        ({ SimpleRunner.default with iter_limit := 3, i := 5 }) 0 [growRule] =
      ([], .IterationLimit 5, { SimpleRunner.default with iter_limit := 3, i := 5 }, 0) ∧
    (runExpr natOps natExprOps
        ({ SimpleRunner.default with iter_limit := 3, i := 5 }) 7 [growRule]).2.1.iterations = [] ∧
    (runExpr natOps natExprOps
        ({ SimpleRunner.default with iter_limit := 3, i := 5 }) 7 [growRule]).2.1.stop_reason =
      .IterationLimit 5 ∧
    (runExpr natOps natExprOps
        ({ SimpleRunner.default with iter_limit := 3, i := 5 }) 7 [growRule]).2.2 =
      { SimpleRunner.default with iter_limit := 3, i := 5 }) ∧
    (5 : Nat) ≠ 3 :=
  ⟨C9_run_at_or_past_limit natOps natExprOps
      ({ SimpleRunner.default with iter_limit := 3, i := 5 }) 0 7 [growRule]
      (by decide),
   by decide⟩

theorem run_stop_iter_limit {G σ : Type} (ops : EGraphOps G)
    (r : SimpleRunner) (g : G) (rules : List (Rewrite G σ)) :
    r.i ≤ r.iter_limit →
    ∀ iters m rf gf,
      run ops r g rules = (iters, .IterationLimit m, rf, gf) →
      m = r.iter_limit ∧ iters.length = r.iter_limit - r.i := by
  induction r, g, rules using run.induct ops with
  | case1 r g rules e hp =>
    intro hle iters m rf gf h
    rw [run_preStep_error ops r g rules e hp] at h
    injection h with h1 h2
    injection h2 with h2 h3
    unfold preStep at hp
    split at hp <;> rename_i hcond
    · injection hp with hp
      rw [← hp] at h2
      injection h2 with h2
      subst h1
      constructor
      · omega
      · simp only [List.length_nil]; omega
    · exact Except.noConfusion hp
  | case2 r g rules hp r1 g1 e hs =>
    intro hle iters m rf gf h
    rw [run_step_error ops r g rules r1 g1 e hp hs] at h
    injection h with h1 h2
    injection h2 with h2 h3
    obtain ⟨n, hn⟩ := step_error_kind ops r g rules r1 g1 e hs
    rw [hn] at h2
    exact SimpleRunnerError.noConfusion h2
  | case3 r g rules hp r1 g1 iter hs r2 e hps =>
    intro hle iters m rf gf h
    rw [run_postStep_error ops r g rules r1 r2 g1 iter e hp hs hps] at h
    injection h with h1 h2
    injection h2 with h2 h3
    have := postStep_error_kind r1 r2 iter e hps
    rw [this] at h2
    exact SimpleRunnerError.noConfusion h2
  | case4 r g rules hp r1 g1 iter hs r2 hps ih =>
    intro hle iters m rf gf h
    rw [run_continue ops r g rules r1 r2 g1 iter hp hs hps] at h
    injection h with h1 h2
    have hlt : r.i < r.iter_limit := (preStep_ok_iff r g).mp hp
    have hc1 := step_ctrl ops r g rules
    rw [hs] at hc1
    have hc2 := postStep_fst r1 iter
    rw [hps] at hc2
    have hr2 : r2.iter_limit = r.iter_limit ∧ r2.i = r.i + 1 := by
      have e1 := congrArg SimpleRunner.iter_limit hc2
      have e2 := congrArg SimpleRunner.i hc2
      simp_all
    have hrec : run ops r2 g1 rules =
        ((run ops r2 g1 rules).1, .IterationLimit m, rf, gf) := by
      rw [← h2]
    have := ih (by omega) (run ops r2 g1 rules).1 m rf gf hrec
    subst h1
    constructor
    · omega
    · simp only [List.length_cons]; omega

/-- C4: for a fresh `SimpleRunner` configured with `iteration_limit = N`,
whenever the run's stop reason is an iteration-limit stop (which is the
case exactly when rules keep producing applications, so neither
`Saturated` nor `NodeLimit` fires first), the report carries exactly N
iteration records and the stop reason is `IterationLimit N`: `pre_step`
stops the would-be (N+1)-th step before doing any work for it. -/
theorem C4_iter_limit_exact_records {G σ : Type} (ops : EGraphOps G)
    (g : G) (rules : List (Rewrite G σ)) (N : Nat)
    (iters : List Iteration) (m : Nat) (rf : SimpleRunner) (gf : G)
    (h : run ops (with_iter_limit SimpleRunner.default N) g rules =
      (iters, .IterationLimit m, rf, gf)) :
    m = N ∧ iters.length = N := by
  have := run_stop_iter_limit ops (with_iter_limit SimpleRunner.default N)
    g rules (by simp [with_iter_limit, SimpleRunner.default])
    iters m rf gf h
  simpa [with_iter_limit, SimpleRunner.default] using this

/-- C4 witness: the always-matching, always-applying `growRule` under
`iteration_limit = 3` produces exactly three records and stops with
`IterationLimit 3`. -/
theorem C4_witness :
    run natOps (with_iter_limit SimpleRunner.default 3) 0 [growRule] =
      ([⟨0, 1, [("grow", 1)]⟩, ⟨1, 1, [("grow", 1)]⟩, ⟨2, 1, [("grow", 1)]⟩],
       .IterationLimit 3,
       { iter_limit := 3, node_limit := 10000, i := 3,
         stats := [("grow", ⟨2, 0, 0⟩)], initial_match_limit := 1000,
         ban_length := 5 }, 3) ∧
    ((3 : Nat) = 3 ∧
      ([⟨0, 1, [("grow", 1)]⟩, ⟨1, 1, [("grow", 1)]⟩,
        ⟨2, 1, [("grow", 1)]⟩] : List Iteration).length = 3) := by
  have hrun :
      run natOps (with_iter_limit SimpleRunner.default 3) 0 [growRule] =
        ([⟨0, 1, [("grow", 1)]⟩, ⟨1, 1, [("grow", 1)]⟩, ⟨2, 1, [("grow", 1)]⟩],
         .IterationLimit 3,
         { iter_limit := 3, node_limit := 10000, i := 3,
           stats := [("grow", ⟨2, 0, 0⟩)], initial_match_limit := 1000,
           ban_length := 5 }, 3) := by
    simp [run, preStep, step, searchLoop, searchRewrite, lookup?, updateEntry,
      totalLen, duringStep, applyLoop, applyRewrite, postStep, natOps,
      growRule, SimpleRunner.default, with_iter_limit]
  exact ⟨hrun, C4_iter_limit_exact_records natOps 0 [growRule] 3 _ 3 _ 3 hrun⟩

theorem searchRewrite_mono {G σ : Type} (r : SimpleRunner) (g : G)
    (rw : Rewrite G σ) (name : String) (s : RuleStats)
    (h : lookup? r.stats name = some s) :
    ∃ s', lookup? (searchRewrite r g rw).1.stats name = some s' ∧
      s.banned_until ≤ s'.banned_until := by
  unfold searchRewrite
  cases hl : lookup? r.stats rw.name with
  | none =>
    exact ⟨s, lookup?_append_of_some _ _ _ _ h, le_refl _⟩
  | some limit =>
    simp only
    split
    · exact ⟨s, h, le_refl _⟩
    · next hnb =>
      split
      · by_cases hname : name = rw.name
        · subst hname
          rw [h] at hl
          injection hl with hl
          subst hl
          refine ⟨_, lookup?_updateEntry_self _ _ _ _ h, ?_⟩
          show s.banned_until ≤ r.i + (r.ban_length <<< s.times_banned)
          exact le_trans (Nat.not_lt.mp hnb) (Nat.le_add_right _ _)
        · exact ⟨s, by
            rw [lookup?_updateEntry_other _ _ _ _ hname]; exact h, le_refl _⟩
      · by_cases hname : name = rw.name
        · subst hname
          rw [h] at hl
          injection hl with hl
          subst hl
          exact ⟨_, lookup?_updateEntry_self _ _ _ _ h, le_refl _⟩
        · exact ⟨s, by
            rw [lookup?_updateEntry_other _ _ _ _ hname]; exact h, le_refl _⟩

theorem applyLoop_runner_eq {G σ : Type} (ops : EGraphOps G)
    (r : SimpleRunner) (g : G) (applied : List (String × Nat))
    (pairs : List (Rewrite G σ × List (SearchMatches σ))) :
    (applyLoop ops r g applied pairs).1 = r := by
  induction pairs generalizing r g applied with
  | nil => rfl
  | cons p rest ih =>
    obtain ⟨rw, ms⟩ := p
    cases hap : rw.apply g ms with
    | mk ga n =>
      simp only [applyLoop, applyRewrite, hap]
      split
      · exact ih r g applied
      · cases hds : duringStep ops r ga with
        | error e => rfl
        | ok u => cases u; exact ih r ga _

theorem searchLoop_mono {G σ : Type} (ops : EGraphOps G) (r : SimpleRunner)
    (g : G) (rules : List (Rewrite G σ)) (name : String) (s : RuleStats)
    (h : lookup? r.stats name = some s) :
    ∃ s', lookup? (searchLoop ops r g rules).1.stats name = some s' ∧
      s.banned_until ≤ s'.banned_until := by
  induction rules generalizing r s with
  | nil => exact ⟨s, h, le_refl _⟩
  | cons rule rest ih =>
    obtain ⟨s1, h1, hle1⟩ := searchRewrite_mono r g rule name s h
    unfold searchLoop
    cases hsr : searchRewrite r g rule with
    | mk ra ms =>
      rw [hsr] at h1
      simp only at h1 ⊢
      cases duringStep ops ra g with
      | error e => exact ⟨s1, h1, hle1⟩
      | ok u =>
        cases u
        obtain ⟨s2, h2, hle2⟩ := ih ra s1 h1
        cases hsl : searchLoop ops ra g rest with
        | mk rb res =>
          rw [hsl] at h2
          cases res <;> exact ⟨s2, h2, le_trans hle1 hle2⟩

theorem step_mono {G σ : Type} (ops : EGraphOps G) (r : SimpleRunner)
    (g : G) (rules : List (Rewrite G σ)) (name : String) (s : RuleStats)
    (h : lookup? r.stats name = some s) :
    ∃ s', lookup? ((step ops r g rules).1).stats name = some s' ∧
      s.banned_until ≤ s'.banned_until := by
  obtain ⟨s1, h1, hle1⟩ := searchLoop_mono ops r g rules name s h
  unfold step
  cases hsl : searchLoop ops r g rules with
  | mk ra res =>
    rw [hsl] at h1
    cases res with
    | error e => exact ⟨s1, h1, hle1⟩
    | ok mss =>
      simp only
      have hre := applyLoop_runner_eq ops ra g [] (rules.zip mss)
      cases hal : applyLoop ops ra g [] (rules.zip mss) with
      | mk rb rest2 =>
        rw [hal] at hre
        simp only at hre
        subst hre
        obtain ⟨gb, appliedb, resb⟩ := rest2
        cases resb <;> exact ⟨s1, h1, hle1⟩

theorem run_mono {G σ : Type} (ops : EGraphOps G) (r : SimpleRunner)
    (g : G) (rules : List (Rewrite G σ)) :
    ∀ (name : String) (s : RuleStats), lookup? r.stats name = some s →
    ∃ s', lookup? ((run ops r g rules).2.2.1).stats name = some s' ∧
      s.banned_until ≤ s'.banned_until := by
  induction r, g, rules using run.induct ops with
  | case1 r g rules e hp =>
    intro name s h
    rw [run_preStep_error ops r g rules e hp]
    exact ⟨s, h, le_refl _⟩
  | case2 r g rules hp r1 g1 e hs =>
    intro name s h
    rw [run_step_error ops r g rules r1 g1 e hp hs]
    obtain ⟨s1, h1, hle1⟩ := step_mono ops r g rules name s h
    rw [hs] at h1
    exact ⟨s1, h1, hle1⟩
  | case3 r g rules hp r1 g1 iter hs r2 e hps =>
    intro name s h
    rw [run_postStep_error ops r g rules r1 r2 g1 iter e hp hs hps]
    obtain ⟨s1, h1, hle1⟩ := step_mono ops r g rules name s h
    rw [hs] at h1
    have hstats : r2.stats = r1.stats := by
      have := postStep_fst r1 iter
      rw [hps] at this
      have := congrArg SimpleRunner.stats this
      simpa using this
    simp only
    rw [hstats]
    exact ⟨s1, h1, hle1⟩
  | case4 r g rules hp r1 g1 iter hs r2 hps ih =>
    intro name s h
    rw [run_continue ops r g rules r1 r2 g1 iter hp hs hps]
    obtain ⟨s1, h1, hle1⟩ := step_mono ops r g rules name s h
    rw [hs] at h1
    have hstats : r2.stats = r1.stats := by
      have := postStep_fst r1 iter
      rw [hps] at this
      have := congrArg SimpleRunner.stats this
      simpa using this
    obtain ⟨s2, h2, hle2⟩ := ih name s1 (by rw [hstats]; exact h1)
    exact ⟨s2, h2, le_trans hle1 hle2⟩

/-- C8: for every rule, `banned_until` is non-decreasing across a run:
a rule first encountered gets a stats entry with `banned_until = 0`,
and from any existing entry, the entry after the entire run (through
every `search_rewrite` each step performs) has a `banned_until` at
least the old one — each assignment in `search_rewrite` writes
`i + ban_length·2^times_banned` for a rule whose old ban had already
expired (`banned_until ≤ i`), so the value never decreases. -/
theorem C8_banned_until_nondecreasing {G σ : Type} (ops : EGraphOps G)
    (r : SimpleRunner) (g : G) (rules : List (Rewrite G σ))
    (name : String) (s : RuleStats)
    (h : lookup? r.stats name = some s) :
    (∀ rw : Rewrite G σ, lookup? r.stats rw.name = none →
      lookup? (searchRewrite r g rw).1.stats rw.name =
        some ⟨0, 0, 0⟩) ∧
    (∃ s', lookup? ((run ops r g rules).2.2.1).stats name = some s' ∧
      s.banned_until ≤ s'.banned_until) := by
  constructor
  · intro rw hnone
    unfold searchRewrite
    rw [hnone]
    simp only
    rw [lookup?_append_of_none _ _ _ hnone]
    simp [lookup?]
  · exact run_mono ops r g rules name s h

theorem searchRewrite_node_limit {G σ : Type} (r : SimpleRunner) (g : G)
    (rule : Rewrite G σ) :
    (searchRewrite r g rule).1.node_limit = r.node_limit := by
  simp only [searchRewrite]
  split
  · split
    · rfl
    · split <;> rfl
  · rfl

theorem searchRewrite_total_zero {G σ : Type} (r : SimpleRunner) (g : G)
    (rule : Rewrite G σ) (h : totalLen (rule.search g) = 0) :
    totalLen (searchRewrite r g rule).2 = 0 := by
  simp only [searchRewrite]
  split
  · split
    · rfl
    · split
      · rfl
      · exact h
  · exact h

theorem searchRewrite_bans_bounded {G σ : Type} (r : SimpleRunner) (g : G)
    (rule : Rewrite G σ) (B : Nat)
    (h : totalLen (rule.search g) = 0)
    (hinv : ∀ p ∈ r.stats, p.2.banned_until ≤ B) :
    ∀ p ∈ (searchRewrite r g rule).1.stats, p.2.banned_until ≤ B := by
  simp only [searchRewrite]
  split
  · next limit hl =>
    split
    · exact hinv
    · split
      · next hth =>
        exfalso
        rw [h] at hth
        exact Nat.not_lt_zero _ hth
      · intro p hp
        rcases mem_updateEntry _ _ _ _ hp with h1 | h1
        · exact hinv p h1
        · rw [h1]
          show limit.banned_until ≤ B
          exact hinv _ (lookup?_mem _ _ _ hl)
  · intro p hp
    rcases List.mem_append.mp hp with h1 | h1
    · exact hinv p h1
    · rcases List.mem_singleton.mp h1 with h2
      rw [h2]
      exact Nat.zero_le _

theorem searchLoop_saturating {G σ : Type} (ops : EGraphOps G)
    (r : SimpleRunner) (g : G) (rules : List (Rewrite G σ))
    (hnm : ∀ rw ∈ rules, totalLen (rw.search g) = 0)
    (hsz : ops.total_size g ≤ r.node_limit)
    (hinv : ∀ p ∈ r.stats, p.2.banned_until ≤ r.i) :
    ∃ r1 mss, searchLoop ops r g rules = (r1, .ok mss) ∧
      (∀ ms ∈ mss, totalLen ms = 0) ∧
      (∀ p ∈ r1.stats, p.2.banned_until ≤ r.i) ∧
      r1.i = r.i ∧ r1.node_limit = r.node_limit := by
  induction rules generalizing r with
  | nil => exact ⟨r, [], rfl, by simp, hinv, rfl, rfl⟩
  | cons rule rest ih =>
    have hz : totalLen (rule.search g) = 0 := hnm rule (List.mem_cons_self _ _)
    have hz2 := searchRewrite_total_zero r g rule hz
    have hban := searchRewrite_bans_bounded r g rule r.i hz hinv
    have hctrl := searchRewrite_ctrl (σ := σ) r g rule
    have hnl := searchRewrite_node_limit r g rule
    cases hsr : searchRewrite r g rule with
    | mk ra ms =>
      rw [hsr] at hz2 hban hctrl hnl
      simp only at hz2 hban hctrl hnl
      have hds : duringStep ops ra g = .ok () := by
        simp only [duringStep]
        rw [if_neg (by rw [hnl]; omega)]
      obtain ⟨r2, mss, hsl, hmss, hban2, hi2, hnl2⟩ := by
        refine ih ra (fun rw0 hrw0 => hnm rw0 (List.mem_cons_of_mem _ hrw0))
          ?_ ?_
        · rw [hnl]; exact hsz
        · rw [hctrl.2]; exact hban
      refine ⟨r2, ms :: mss, ?_, ?_, ?_, ?_, ?_⟩
      · unfold searchLoop
        rw [hsr]
        simp only
        rw [hds]
        simp only
        rw [hsl]
      · intro m hm
        rcases List.mem_cons.mp hm with h1 | h1
        · rw [h1]; exact hz2
        · exact hmss m h1
      · rw [← hctrl.2]; exact hban2
      · rw [hi2, hctrl.2]
      · rw [hnl2, hnl]

theorem applyLoop_all_zero {G σ : Type} (ops : EGraphOps G)
    (r : SimpleRunner) (g : G) (applied : List (String × Nat))
    (pairs : List (Rewrite G σ × List (SearchMatches σ)))
    (h : ∀ pr ∈ pairs, totalLen pr.2 = 0) :
    applyLoop ops r g applied pairs = (r, g, applied, .ok ()) := by
  induction pairs with
  | nil => rfl
  | cons p rest ih =>
    obtain ⟨rw, ms⟩ := p
    have hz : totalLen ms = 0 := h (rw, ms) (List.mem_cons_self _ _)
    simp only [applyLoop]
    rw [if_pos hz]
    exact ih fun pr hpr => h pr (List.mem_cons_of_mem _ hpr)

theorem run_saturates_now {G σ : Type} (ops : EGraphOps G)
    (r : SimpleRunner) (g : G) (rules : List (Rewrite G σ))
    (hlt : r.i < r.iter_limit)
    (hinv : ∀ p ∈ r.stats, p.2.banned_until ≤ r.i)
    (hnm : ∀ rw ∈ rules, totalLen (rw.search g) = 0)
    (hsz : ops.total_size g ≤ r.node_limit) :
    ∃ rf, run ops r g rules =
      ([{ egraph_nodes := ops.total_size g
          egraph_classes := ops.number_of_classes g
          applied := [] }], .Saturated, rf, ops.rebuild g) := by
  obtain ⟨r1, mss, hsl, hmss, hban, hi1, _⟩ :=
    searchLoop_saturating ops r g rules hnm hsz hinv
  have hal : applyLoop ops r1 g [] (rules.zip mss) =
      (r1, g, [], .ok ()) := by
    refine applyLoop_all_zero ops r1 g [] (rules.zip mss) ?_
    intro pr hpr
    exact hmss pr.2 (List.of_mem_zip hpr).2
  have hstep : step ops r g rules =
      (r1, ops.rebuild g,
       .ok { egraph_nodes := ops.total_size g
             egraph_classes := ops.number_of_classes g
             applied := [] }) := by
    unfold step
    rw [hsl]
    simp only
    rw [hal]
  have hpost : postStep r1
      { egraph_nodes := ops.total_size g
        egraph_classes := ops.number_of_classes g
        applied := [] } =
      ({ r1 with i := r1.i + 1 }, .error .Saturated) := by
    simp only [postStep]
    rw [if_pos ?_]
    · simp only [Bool.and_eq_true, Bool.not_eq_true', List.any_eq_false,
        decide_eq_true_eq]
      refine ⟨fun p hp => ?_, rfl⟩
      have := hban p hp
      omega
  have hpre : preStep r g = .ok () := (preStep_ok_iff r g).mpr hlt
  exact ⟨{ r1 with i := r1.i + 1 },
    run_postStep_error ops r g rules r1 _ _ _ _ hpre hstep hpost⟩

/-- C6 counterexample: the claim quantifies over every rule set with no
match against the initial term, but with a 20000-node initial graph and
one non-matching rule the very first `during_step` trips `NodeLimit`
before the step completes: the run yields zero iteration records and
stop reason `NodeLimit 20000`, not one record with `Saturated`. -/
theorem C6_counterexample :
    totalLen (idleRule.search 20000) = 0 ∧
    run natOps SimpleRunner.default 20000 [idleRule] =
      ([], .NodeLimit 20000,
       { SimpleRunner.default with stats := [("idle", ⟨0, 0, 0⟩)] },
       20000) := by
  constructor
  · rfl
  · simp [run, preStep, step, searchLoop, searchRewrite, lookup?, updateEntry,
      totalLen, duringStep, applyLoop, applyRewrite, postStep, natOps,
      idleRule, SimpleRunner.default]

/-- C6 amended: for a rule set in which no rule's search produces any
match against the initial term, *provided the initial graph's node
count does not exceed the default `node_limit` of 10000*, a fresh
default `SimpleRunner` terminates after exactly one completed step with
stop reason `Saturated` and an empty applied mapping in that single
record. -/
theorem C6_no_match_saturates_one_step {G σ : Type} (ops : EGraphOps G)
    (g : G) (rules : List (Rewrite G σ))
    (hnm : ∀ rw ∈ rules, totalLen (rw.search g) = 0)
    (hsz : ops.total_size g ≤ SimpleRunner.default.node_limit) :
    ∃ rf, run ops SimpleRunner.default g rules =
      ([{ egraph_nodes := ops.total_size g
          egraph_classes := ops.number_of_classes g
          applied := [] }], .Saturated, rf, ops.rebuild g) :=
  run_saturates_now ops SimpleRunner.default g rules (by decide)
    (by simp [SimpleRunner.default]) hnm hsz

/-- C6 witness: a single never-matching rule on a small graph: the run
completes exactly one step, records an empty applied mapping, and stops
with `Saturated`. -/
theorem C6_witness :
    ∃ rf, run natOps SimpleRunner.default 7 [idleRule] =
      ([{ egraph_nodes := natOps.total_size 7
          egraph_classes := natOps.number_of_classes 7
          applied := [] }], .Saturated, rf, natOps.rebuild 7) :=
  C6_no_match_saturates_one_step natOps 7 [idleRule]
    (by intro rw hrw; simp at hrw; rw [hrw]; rfl) (by decide)

/-- Specification device for describing `run`'s trace: replay `n`
fully completed loop passes (`pre_step` ok, `step` ok, `post_step` ok)
from a given state, returning the records produced in order and the
state reached, or `none` if any of the `n` passes would not complete. -/
def stepsOf {G σ : Type} (ops : EGraphOps G) :
    Nat → SimpleRunner → G → List (Rewrite G σ) →
    Option (List Iteration × SimpleRunner × G)
  | 0, r, g, _ => some ([], r, g)
  | n+1, r, g, rules =>
    match preStep r g with
    | .error _ => none
    | .ok () =>
      match step ops r g rules with
      | (_, _, .error _) => none
      | (r1, g1, .ok iter) =>
        match postStep r1 iter with
        | (_, .error _) => none
        | (r2, .ok ()) =>
          match stepsOf ops n r2 g1 rules with
          | none => none
          | some (iters, rf, gf) => some (iter :: iters, rf, gf)

theorem stepsOf_succ {G σ : Type} (ops : EGraphOps G) (n : Nat)
    (r r1 r2 rf : SimpleRunner) (g g1 gf : G)
    (rules : List (Rewrite G σ)) (iter : Iteration) (rest : List Iteration)
    (hp : preStep r g = .ok ())
    (hs : step ops r g rules = (r1, g1, .ok iter))
    (hps : postStep r1 iter = (r2, .ok ()))
    (hrec : stepsOf ops n r2 g1 rules = some (rest, rf, gf)) :
    stepsOf ops (n + 1) r g rules = some (iter :: rest, rf, gf) := by
  simp only [stepsOf]
  rw [hp]
  simp only
  rw [hs]
  simp only
  rw [hps]
  simp only
  rw [hrec]

/-- C5: the iteration list of a run consists exactly of the records of
the fully completed steps, in order: the run decomposes into a replay
of `iterations.length` completed passes reaching a state `(rk, gk)`
(for a `post_step` stop, all but the last record), followed by the one
hook signal that stopped it.  In particular a stop signalled by
`during_step` in the middle of a step (a `step` error) contributes no
record, while the final graph is exactly the partially mutated graph
that aborted `step` returned — mutations made by earlier rules of the
aborted step are retained, not rolled back. -/
theorem C5_aborted_step_leaves_no_record {G σ : Type} (ops : EGraphOps G)
    (r : SimpleRunner) (g : G) (rules : List (Rewrite G σ)) :
    ∀ (iters : List Iteration) (e : SimpleRunnerError) (rf : SimpleRunner)
      (gf : G), run ops r g rules = (iters, e, rf, gf) →
    (∃ rk gk, stepsOf ops iters.length r g rules = some (iters, rk, gk) ∧
       preStep rk gk = .error e ∧ rf = rk ∧ gf = gk) ∨
    (∃ rk gk, stepsOf ops iters.length r g rules = some (iters, rk, gk) ∧
       preStep rk gk = .ok () ∧ step ops rk gk rules = (rf, gf, .error e)) ∨
    (∃ init last rk gk r1,
       iters = init ++ [last] ∧
       stepsOf ops init.length r g rules = some (init, rk, gk) ∧
       preStep rk gk = .ok () ∧ step ops rk gk rules = (r1, gf, .ok last) ∧
       postStep r1 last = (rf, .error e)) := by
  induction r, g, rules using run.induct ops with
  | case1 r g rules e0 hp =>
    intro iters e rf gf h
    rw [run_preStep_error ops r g rules e0 hp] at h
    injection h with h1 h2
    injection h2 with h2 h3
    injection h3 with h3 h4
    subst h1; subst h2; subst h3; subst h4
    exact .inl ⟨r, g, rfl, hp, rfl, rfl⟩
  | case2 r g rules hp r1 g1 e0 hs =>
    intro iters e rf gf h
    rw [run_step_error ops r g rules r1 g1 e0 hp hs] at h
    injection h with h1 h2
    injection h2 with h2 h3
    injection h3 with h3 h4
    subst h1; subst h2; subst h3; subst h4
    exact .inr (.inl ⟨r, g, rfl, hp, hs⟩)
  | case3 r g rules hp r1 g1 iter hs r2 e0 hps =>
    intro iters e rf gf h
    rw [run_postStep_error ops r g rules r1 r2 g1 iter e0 hp hs hps] at h
    injection h with h1 h2
    injection h2 with h2 h3
    injection h3 with h3 h4
    subst h1; subst h2; subst h3; subst h4
    refine .inr (.inr ⟨[], iter, r, g, r1, rfl, rfl, hp, hs, hps⟩)
  | case4 r g rules hp r1 g1 iter hs r2 hps ih =>
    intro iters e rf gf h
    rw [run_continue ops r g rules r1 r2 g1 iter hp hs hps] at h
    injection h with h1 h2
    subst h1
    have ht : run ops r2 g1 rules =
        ((run ops r2 g1 rules).1, e, rf, gf) := by
      rw [← h2]
    rcases ih (run ops r2 g1 rules).1 e rf gf ht with
      ⟨rk, gk, hsteps, hpre, hrf, hgf⟩ |
      ⟨rk, gk, hsteps, hpre, hstep⟩ |
      ⟨init, last, rk, gk, ra, hiters, hsteps, hpre, hstep, hpost⟩
    · refine .inl ⟨rk, gk, ?_, hpre, hrf, hgf⟩
      rw [List.length_cons]
      exact stepsOf_succ ops _ r r1 r2 rk g g1 gk rules iter _ hp hs hps hsteps
    · refine .inr (.inl ⟨rk, gk, ?_, hpre, hstep⟩)
      rw [List.length_cons]
      exact stepsOf_succ ops _ r r1 r2 rk g g1 gk rules iter _ hp hs hps hsteps
    · refine .inr (.inr ⟨iter :: init, last, rk, gk, ra, ?_, ?_, hpre, hstep, hpost⟩)
      · rw [hiters, List.cons_append]
      · rw [List.length_cons]
        exact stepsOf_succ ops _ r r1 r2 rk g g1 gk rules iter _ hp hs hps hsteps

/-- A rule that always finds one match and whose apply grows the graph
by five nodes at once. -/
def grow5Rule : Rewrite Nat Nat := ⟨"grow5", fun _ => [⟨[0]⟩], fun g _ => (g + 5, 1)⟩

/-- The runner for the C5 scenario: default but `node_limit = 12`. -/
def c5Runner : SimpleRunner := with_node_limit SimpleRunner.default 12

/-- The runner state in which the C5 scenario's aborted step ends. -/
def c5Final : SimpleRunner :=
  { SimpleRunner.default with
      node_limit := 12
      stats := [("grow5", ⟨0, 0, 0⟩)] }

/-- C5 witness: starting from a 10-node graph with `node_limit = 12`,
`grow5Rule` pushes the graph to 15 nodes mid-step and `during_step`
aborts: the run has zero iteration records (zero completed steps) and
the final graph is the mutated 15-node graph, not the 10-node one the
step started from. -/
theorem C5_witness :
    ((∃ rk gk, stepsOf natOps 0 c5Runner 10 [grow5Rule] = some ([], rk, gk) ∧
        preStep rk gk = .error (.NodeLimit 15) ∧ c5Final = rk ∧
        (15 : Nat) = gk) ∨
     (∃ rk gk, stepsOf natOps 0 c5Runner 10 [grow5Rule] = some ([], rk, gk) ∧
        preStep rk gk = .ok () ∧
        step natOps rk gk [grow5Rule] = (c5Final, 15, .error (.NodeLimit 15))) ∨
     (∃ init last rk gk r1, ([] : List Iteration) = init ++ [last] ∧
        stepsOf natOps init.length c5Runner 10 [grow5Rule] =
          some (init, rk, gk) ∧
        preStep rk gk = .ok () ∧
        step natOps rk gk [grow5Rule] = (r1, 15, .ok last) ∧
        postStep r1 last = (c5Final, .error (.NodeLimit 15)))) ∧
    (15 : Nat) ≠ 10 :=
  ⟨C5_aborted_step_leaves_no_record natOps c5Runner 10 [grow5Rule] []
      (.NodeLimit 15) c5Final 15
      (by simp [run, preStep, step, searchLoop, searchRewrite, lookup?,
        updateEntry, totalLen, duringStep, applyLoop, applyRewrite, postStep,
        natOps, grow5Rule, SimpleRunner.default, with_node_limit, c5Runner,
        c5Final]),
   by decide⟩

/-- A runner mid-run: the rule `"grow"` is banned until iteration 2,
and only three iterations remain before the limit. -/
def c8Runner : SimpleRunner :=
  { SimpleRunner.default with
      iter_limit := 3
      stats := [("grow", ⟨0, 2, 0⟩)] }

/-- C8 witness: over a full run from a state where `"grow"` carries
`banned_until = 2`, the rule's final stats keep `banned_until ≥ 2`;
fresh rules enter with `banned_until = 0`. -/
theorem C8_witness :
    (∀ rw : Rewrite Nat Nat, lookup? c8Runner.stats rw.name = none →
      lookup? (searchRewrite c8Runner (0 : Nat) rw).1.stats rw.name =
        some ⟨0, 0, 0⟩) ∧
    (∃ s', lookup?
        ((run natOps c8Runner 0 [growRule]).2.2.1).stats "grow" = some s' ∧
      (⟨0, 2, 0⟩ : RuleStats).banned_until ≤ s'.banned_until) :=
  C8_banned_until_nondecreasing natOps c8Runner 0 [growRule] "grow"
    ⟨0, 2, 0⟩ rfl

/-- C1 witness: the amended rule evaluated at the counterexample state:
with the rule banned until 6 and the pre-increment counter 5, the ban
is still outstanding (6 > 5), so `post_step` continues even though the
applied mapping is empty. -/
theorem C1_witness :
    ((postStep c1Runner c1Iter).1 = { c1Runner with i := c1Runner.i + 1 }) ∧
    ((postStep c1Runner c1Iter).2 = .error .Saturated ↔
      c1Iter.applied = [] ∧
        ∀ p ∈ c1Runner.stats, p.2.banned_until ≤ c1Runner.i) ∧
    ((postStep c1Runner c1Iter).2 = .error .Saturated ∨
      (postStep c1Runner c1Iter).2 = .ok ()) :=
  C1_post_step_saturation c1Runner c1Iter

/-- C3 witness: `with_node_limit 42` changes only `node_limit`; a
builder call leaves `ban_length` at the default 5. -/
theorem C3_witness :
    (with_iter_limit SimpleRunner.default 42 =
      { SimpleRunner.default with iter_limit := 42 }) ∧
    (with_node_limit SimpleRunner.default 42 =
      { SimpleRunner.default with node_limit := 42 }) ∧
    (with_initial_match_limit SimpleRunner.default 42 =
      { SimpleRunner.default with initial_match_limit := 42 }) ∧
    ((applyBuilder SimpleRunner.default (.withNodeLimit 42)).ban_length =
      SimpleRunner.default.ban_length) ∧
    (SimpleRunner.default.iter_limit = 30 ∧
      SimpleRunner.default.node_limit = 10000 ∧
      SimpleRunner.default.initial_match_limit = 1000 ∧
      SimpleRunner.default.ban_length = 5) :=
  C3_builders_frame SimpleRunner.default 42 (.withNodeLimit 42)

end EggRun
